import Mathlib

/-!
Verification of the bias-only rating-prediction estimator
(`src/baseline_model.py`): the SGD and ALS bias trainers, the RMSE metric,
the batch predictor with clipping and cold-start flagging, and the
`BaselineModel` orchestration (`fit` / `predict`).

The code's floating-point scalars are modelled as exact rationals (`ℚ`);
the one place where floating-point division by zero matters (the ALS
closed-form solve at `reg = 0` for a user/item with no records) is modelled
separately with an explicit non-finite value (`Option ℚ`, `none` standing
for the NaN that `numpy` produces there).
-/

namespace Baseline

/-- One training record: dense user index, dense item index, rating.
A row of the `X` matrix consumed by `_sgd` / `_als` / `_rmse`. -/
structure TrainRec where
  user : Nat
  item : Nat
  rating : ℚ
deriving DecidableEq, Repr

/-- Mean of squared prediction errors over the table, exactly the quantity
`np.square(errors).mean()` inside `_rmse`: for each record the error is
`rating - (global_mean + user_biases[user] + item_biases[item])`. -/
def mse (X : List TrainRec) (global_mean : ℚ) (user_biases item_biases : List ℚ) : ℚ :=
  ((X.map fun rec =>
      (rec.rating - (global_mean + user_biases.getD rec.user 0 + item_biases.getD rec.item 0)) ^ 2).sum)
    / (X.length : ℚ)

/-- `_rmse`: square root of the mean squared error (`np.sqrt` applied to
the mean of the squared errors). -/
noncomputable def rmse (X : List TrainRec) (global_mean : ℚ) (user_biases item_biases : List ℚ) : ℝ :=
  Real.sqrt ((mse X global_mean user_biases item_biases : ℚ) : ℝ)

/-- The body of `_sgd`'s inner loop for one record: compute
`rating_pred = global_mean + user_biases[user] + item_biases[item]`,
`error = rating - rating_pred`, then update the user bias and the item bias
in place (the state is the pair `(user_biases, item_biases)`). -/
def sgdStep (global_mean lr reg : ℚ) (st : List ℚ × List ℚ) (rec : TrainRec) : List ℚ × List ℚ :=
  let user_biases := st.1
  let item_biases := st.2
  let rating_pred := global_mean + user_biases.getD rec.user 0 + item_biases.getD rec.item 0
  let error := rec.rating - rating_pred
  (user_biases.set rec.user
      (user_biases.getD rec.user 0 + lr * (error - reg * user_biases.getD rec.user 0)),
   item_biases.set rec.item
      (item_biases.getD rec.item 0 + lr * (error - reg * item_biases.getD rec.item 0)))

/-- One epoch of `_sgd`: the inner `for i in range(X.shape[0])` loop,
visiting the records in table order and threading the updated bias pair. -/
def sgdEpoch (global_mean lr reg : ℚ) (X : List TrainRec) (st : List ℚ × List ℚ) : List ℚ × List ℚ :=
  X.foldl (sgdStep global_mean lr reg) st

/-- `_sgd`: run `n_epochs` identical epochs over the table. -/
def sgd (X : List TrainRec) (global_mean : ℚ) (st : List ℚ × List ℚ)
    (n_epochs : Nat) (lr reg : ℚ) : List ℚ × List ℚ :=
  (sgdEpoch global_mean lr reg X)^[n_epochs] st

/-! ### ALS trainer (`_als`)

Both passes of `_als` have the same shape: zero two accumulator arrays
(running sums and counts), walk the table once adding the residual and `1`
at the key index (user for the user pass, item for the item pass), then
divide elementwise by `reg + count`.  `accumPass`/`solvePass` embed that
shape once, generic in the key and the residual; `alsUserPass` and
`alsItemPass` instantiate them exactly as the two loops in the source. -/

/-- The accumulation loop shared by both `_als` passes: starting from the
zeroed `np.zeros(n)` sum and size arrays, for each record add `f rec` to the
sums and `1` to the sizes, both at index `key rec`. -/
def accumPass (key : TrainRec → Nat) (f : TrainRec → ℚ) (X : List TrainRec) (n : Nat) :
    List ℚ × List ℚ :=
  X.foldl (fun acc rec =>
      (acc.1.set (key rec) (acc.1.getD (key rec) 0 + f rec),
       acc.2.set (key rec) (acc.2.getD (key rec) 0 + 1)))
    (List.replicate n 0, List.replicate n 0)

/-- The closed-form solve shared by both `_als` passes: accumulate, then set
`biases = sums / (reg + sizes)` elementwise. -/
def solvePass (key : TrainRec → Nat) (f : TrainRec → ℚ) (X : List TrainRec) (reg : ℚ)
    (n : Nat) : List ℚ :=
  List.zipWith (fun s c => s / (reg + c)) (accumPass key f X n).1 (accumPass key f X n).2

/-- The user pass of `_als`: key by user, residual
`rating - global_mean - item_biases[item]` (the item biases held fixed; the
old user biases are discarded by the `np.zeros` rebinding, never read). -/
def alsUserPass (X : List TrainRec) (global_mean reg : ℚ) (n_users : Nat)
    (item_biases : List ℚ) : List ℚ :=
  solvePass (fun rec => rec.user)
    (fun rec => rec.rating - global_mean - item_biases.getD rec.item 0) X reg n_users

/-- The item pass of `_als`: key by item, residual
`rating - global_mean - user_biases[user]` against the given user biases. -/
def alsItemPass (X : List TrainRec) (global_mean reg : ℚ) (n_items : Nat)
    (user_biases : List ℚ) : List ℚ :=
  solvePass (fun rec => rec.item)
    (fun rec => rec.rating - global_mean - user_biases.getD rec.user 0) X reg n_items

/-- One epoch of `_als`: the user pass (reading only the incoming item
biases), then the item pass reading the just-updated user biases. -/
def alsEpoch (X : List TrainRec) (global_mean reg : ℚ) (n_users n_items : Nat)
    (st : List ℚ × List ℚ) : List ℚ × List ℚ :=
  (alsUserPass X global_mean reg n_users st.2,
   alsItemPass X global_mean reg n_items (alsUserPass X global_mean reg n_users st.2))

/-- `_als`: `n_users`/`n_items` are read off the incoming vectors once, then
`n_epochs` epochs run. -/
def als (X : List TrainRec) (global_mean : ℚ) (user_biases item_biases : List ℚ)
    (n_epochs : Nat) (reg : ℚ) : List ℚ × List ℚ :=
  (alsEpoch X global_mean reg user_biases.length item_biases.length)^[n_epochs]
    (user_biases, item_biases)

/-! ### Floating-point-faithful ALS (`_als` with numpy division semantics)

The `ℚ`-valued `als` above idealises the code's float arithmetic as exact
real arithmetic, under which every division in `_als` is by `reg + count`.
numpy, however, evaluates `0.0 / 0.0` (a user or item with zero records when
`reg = 0`) to NaN.  `alsF` is the same algorithm with scalars
`Option ℚ`: `some q` is a finite value, `none` a non-finite result (the NaN
produced by that division; in every reachable state with `reg ≥ 0` a zero
denominator comes with a zero numerator, so `none` stands exactly for NaN). -/

/-- Float addition: finite on finite arguments, non-finite otherwise. -/
def fadd : Option ℚ → Option ℚ → Option ℚ
  | some x, some y => some (x + y)
  | _, _ => none

/-- Float subtraction: finite on finite arguments, non-finite otherwise. -/
def fsub : Option ℚ → Option ℚ → Option ℚ
  | some x, some y => some (x - y)
  | _, _ => none

/-- Float division: division by zero yields a non-finite value (NaN for
`0.0 / 0.0`, which is the only zero-denominator case `_als` reaches when
`reg ≥ 0`); non-finite operands propagate. -/
def fdiv : Option ℚ → Option ℚ → Option ℚ
  | some x, some y => if y = 0 then none else some (x / y)
  | _, _ => none

/-- The `_als` accumulation loop over float values (sizes are counts and
stay exact). -/
def accumPassF (key : TrainRec → Nat) (f : TrainRec → Option ℚ) (X : List TrainRec)
    (n : Nat) : List (Option ℚ) × List ℚ :=
  X.foldl (fun acc rec =>
      (acc.1.set (key rec) (fadd (acc.1.getD (key rec) (some 0)) (f rec)),
       acc.2.set (key rec) (acc.2.getD (key rec) 0 + 1)))
    (List.replicate n (some 0), List.replicate n 0)

/-- The `_als` closed-form solve over float values:
`biases = sums / (reg + sizes)` elementwise, with float division. -/
def solvePassF (key : TrainRec → Nat) (f : TrainRec → Option ℚ) (X : List TrainRec)
    (reg : ℚ) (n : Nat) : List (Option ℚ) :=
  List.zipWith (fun s c => fdiv s (some (reg + c)))
    (accumPassF key f X n).1 (accumPassF key f X n).2

/-- User pass of `_als`, float semantics. -/
def alsUserPassF (X : List TrainRec) (global_mean reg : ℚ) (n_users : Nat)
    (item_biases : List (Option ℚ)) : List (Option ℚ) :=
  solvePassF (fun rec => rec.user)
    (fun rec => fsub (fsub (some rec.rating) (some global_mean))
      (item_biases.getD rec.item (some 0))) X reg n_users

/-- Item pass of `_als`, float semantics. -/
def alsItemPassF (X : List TrainRec) (global_mean reg : ℚ) (n_items : Nat)
    (user_biases : List (Option ℚ)) : List (Option ℚ) :=
  solvePassF (fun rec => rec.item)
    (fun rec => fsub (fsub (some rec.rating) (some global_mean))
      (user_biases.getD rec.user (some 0))) X reg n_items

/-- One `_als` epoch, float semantics: user pass, then item pass on the
just-updated user biases. -/
def alsEpochF (X : List TrainRec) (global_mean reg : ℚ) (n_users n_items : Nat)
    (st : List (Option ℚ) × List (Option ℚ)) : List (Option ℚ) × List (Option ℚ) :=
  (alsUserPassF X global_mean reg n_users st.2,
   alsItemPassF X global_mean reg n_items (alsUserPassF X global_mean reg n_users st.2))

/-- `_als` with float semantics: `n_epochs` epochs. -/
def alsF (X : List TrainRec) (global_mean : ℚ) (user_biases item_biases : List (Option ℚ))
    (n_epochs : Nat) (reg : ℚ) : List (Option ℚ) × List (Option ℚ) :=
  (alsEpochF X global_mean reg user_biases.length item_biases.length)^[n_epochs]
    (user_biases, item_biases)

/-! ### Predictor and `BaselineModel` orchestration -/

/-- A raw training row of `fit`'s DataFrame: external user id, external item
id, rating. -/
structure RawRating where
  u_id : Int
  i_id : Int
  rating : ℚ
deriving DecidableEq, Repr

/-- A raw query row of `predict`'s DataFrame. -/
structure RawQuery where
  u_id : Int
  i_id : Int
deriving DecidableEq, Repr

/-- Modelled from the spec: `preprocess_data` lives in `src/utils.py`, which
is not among the sources; per the spec it maps raw external user/item
identifiers to dense contiguous integer indices `[0, n_users)` /
`[0, n_items)`.  Ids are numbered here in order of first appearance:
`dedupFirst` lists the distinct ids in that order, and an id's dense index
is its position in the list. -/
def dedupFirst (ids : List Int) : List Int :=
  ids.foldl (fun acc x => if x ∈ acc then acc else acc ++ [x]) []

/-- Modelled from the spec: the remapped training table and the two
id → dense-index maps returned by `preprocess_data`. -/
def preprocessData (X : List RawRating) : List TrainRec × List Int × List Int :=
  let user_id_map := dedupFirst (X.map fun r => r.u_id)
  let item_id_map := dedupFirst (X.map fun r => r.i_id)
  (X.map fun r => ⟨user_id_map.indexOf r.u_id, item_id_map.indexOf r.i_id, r.rating⟩,
   user_id_map, item_id_map)

/-- One row of `_predict`: `user_known`/`item_known` compare against the
`UNKNOWN` sentinel `-1`; `rating_pred` starts at `global_mean` and a bias is
added only when the corresponding index is known (so the sentinel never
indexes a bias vector; in the pipeline an index is either `-1` or a valid
position, hence the `toNat` lookup); the prediction is clipped to
`[min_rating, max_rating]` and paired with `user_known AND item_known`. -/
def predictOne (global_mean min_rating max_rating : ℚ) (user_biases item_biases : List ℚ)
    (q : Int × Int) : ℚ × Bool :=
  let user := q.1
  let item := q.2
  let user_known := user != -1
  let item_known := item != -1
  let rating_pred := global_mean
    + (if user_known then user_biases.getD user.toNat 0 else 0)
    + (if item_known then item_biases.getD item.toNat 0 else 0)
  let clipped := if rating_pred > max_rating then max_rating
    else if rating_pred < min_rating then min_rating
    else rating_pred
  (clipped, user_known && item_known)

/-- `_predict`: walk the query rows in order, collecting the predictions and
the `predictions_possible` flags. -/
def predictKernel (X : List (Int × Int)) (global_mean min_rating max_rating : ℚ)
    (user_biases item_biases : List ℚ) : List ℚ × List Bool :=
  (X.map (predictOne global_mean min_rating max_rating user_biases item_biases)).unzip

/-- The `BaselineModel` estimator state: the constructor configuration plus
the learned attributes, `none` (`None` in the source) until `fit` sets
them. -/
structure Model where
  method : String
  n_epochs : Int
  reg : ℚ
  lr : ℚ
  min_rating : ℚ
  max_rating : ℚ
  global_mean : Option ℚ
  user_biases : Option (List ℚ)
  item_biases : Option (List ℚ)
  user_id_map : Option (List Int)
  item_id_map : Option (List Int)
deriving DecidableEq, Repr

/-- `BaselineModel.__init__`: store the configuration, set every learned
attribute to `None`.  No validation of any kind is performed. -/
def initModel (method : String) (n_epochs : Int) (reg lr min_rating max_rating : ℚ) :
    Model :=
  ⟨method, n_epochs, reg, lr, min_rating, max_rating, none, none, none, none, none⟩

/-- `BaselineModel.fit`: preprocess, store the id maps, zero-fill both bias
vectors, set `global_mean` to the mean training rating, then dispatch on
`method`: `"sgd"` and `"als"` run the trainers (`range(n_epochs)` runs
`max n_epochs 0` epochs, hence `toNat`); any other string runs no trainer
and leaves the zero-filled biases.  Every learned attribute is overwritten;
no configuration or fitted-state check occurs anywhere. -/
def fit (m : Model) (X : List RawRating) : Model :=
  let pre := preprocessData X
  let user_id_map := pre.2.1
  let item_id_map := pre.2.2
  let user_biases := List.replicate user_id_map.length (0 : ℚ)
  let item_biases := List.replicate item_id_map.length (0 : ℚ)
  let global_mean := (X.map fun r => r.rating).sum / (X.length : ℚ)
  let trained :=
    if m.method = "sgd" then
      sgd pre.1 global_mean (user_biases, item_biases) m.n_epochs.toNat m.lr m.reg
    else if m.method = "als" then
      als pre.1 global_mean user_biases item_biases m.n_epochs.toNat m.reg
    else (user_biases, item_biases)
  { m with global_mean := some global_mean,
           user_biases := some trained.1,
           item_biases := some trained.2,
           user_id_map := some user_id_map,
           item_id_map := some item_id_map }

/-- The one error the estimator actually surfaces: calling `predict` on an
unfitted model, whose learned attributes are all `None`, makes the remap
step `X["u_id"].map(None)` raise a `TypeError` immediately. -/
inductive ModelError where
  | unfitted
deriving DecidableEq, Repr

/-- `BaselineModel.fit` viewed with an error channel: the method has no
failure path of its own (no configuration validation, no fitted-state
check), so it returns `Except.ok` on every input. -/
def fitE (m : Model) (X : List RawRating) : Except ModelError Model :=
  Except.ok (fit m X)

/-- Remap one raw query row through the learned id maps; an id absent from
training becomes the sentinel `-1` (`fillna(-1)`). -/
def remapQuery (user_id_map item_id_map : List Int) (q : RawQuery) : Int × Int :=
  (if q.u_id ∈ user_id_map then (user_id_map.indexOf q.u_id : Int) else -1,
   if q.i_id ∈ item_id_map then (item_id_map.indexOf q.i_id : Int) else -1)

/-- `BaselineModel.predict`: on a fitted model, remap the query ids and run
`_predict`, producing the ordered predictions and the parallel
`predictions_possible` flags (the source returns the former and stores the
latter in `self._predictions_possible`).  On an unfitted model the remap
step fails immediately (`ModelError.unfitted`). -/
def predictE (m : Model) (X : List RawQuery) : Except ModelError (List ℚ × List Bool) :=
  match m.user_id_map, m.item_id_map, m.global_mean, m.user_biases, m.item_biases with
  | some user_id_map, some item_id_map, some global_mean, some user_biases,
      some item_biases =>
    Except.ok (predictKernel (X.map (remapQuery user_id_map item_id_map))
      global_mean m.min_rating m.max_rating user_biases item_biases)
  | _, _, _, _, _ => Except.error ModelError.unfitted

/-! ### Index bookkeeping lemmas -/

theorem getD_zipWith {α β γ : Type} (g : α → β → γ) (as : List α) (bs : List β)
    (da : α) (db : β) (dc : γ) (u : Nat) (h : u < as.length) (h2 : u < bs.length) :
    (List.zipWith g as bs).getD u dc = g (as.getD u da) (bs.getD u db) := by
  have hl : u < (List.zipWith g as bs).length := by
    rw [List.length_zipWith]; omega
  rw [List.getD_eq_getElem _ dc hl, List.getD_eq_getElem _ da h, List.getD_eq_getElem _ db h2,
    List.getElem_zipWith]

theorem getD_set_self {α : Type} (l : List α) (i : Nat) (a d : α) (h : i < l.length) :
    (l.set i a).getD i d = a := by
  rw [List.getD_eq_getElem _ d (by simpa using h)]
  simp [List.getElem_set]

theorem getD_set_ne {α : Type} (l : List α) (i j : Nat) (a d : α) (h : i ≠ j) :
    (l.set i a).getD j d = l.getD j d := by
  by_cases hj : j < l.length
  · rw [List.getD_eq_getElem _ d (by simpa using hj), List.getD_eq_getElem _ d hj]
    simp [List.getElem_set, h]
  · rw [List.getD_eq_default _ _ (by simpa using Nat.le_of_not_lt hj),
      List.getD_eq_default _ _ (Nat.le_of_not_lt hj)]

theorem getD_replicate {α : Type} (n u : Nat) (a : α) : (List.replicate n a).getD u a = a := by
  by_cases h : u < n
  · rw [List.getD_eq_getElem _ a (by simpa using h)]
    exact List.getElem_replicate a _
  · rw [List.getD_eq_default _ _ (by simpa using Nat.le_of_not_lt h)]

/-- The accumulation fold, started from an arbitrary state of the right
lengths, adds (at each index `u`) the sum of `f` over the records keyed `u`
to the sums and the number of such records to the sizes. -/
theorem accum_foldl_getD (key : TrainRec → Nat) (f : TrainRec → ℚ) (X : List TrainRec)
    (init : List ℚ × List ℚ) (u : Nat) (hu1 : u < init.1.length) (hu2 : u < init.2.length) :
    ((X.foldl (fun acc rec =>
        (acc.1.set (key rec) (acc.1.getD (key rec) 0 + f rec),
         acc.2.set (key rec) (acc.2.getD (key rec) 0 + 1))) init).1.getD u 0
      = init.1.getD u 0 + ((X.filter fun rec => key rec == u).map f).sum)
    ∧ ((X.foldl (fun acc rec =>
        (acc.1.set (key rec) (acc.1.getD (key rec) 0 + f rec),
         acc.2.set (key rec) (acc.2.getD (key rec) 0 + 1))) init).2.getD u 0
      = init.2.getD u 0 + ((X.filter fun rec => key rec == u).length : ℚ)) := by
  induction X generalizing init with
  | nil => simp
  | cons rec X ih =>
    have h1 : u < (init.1.set (key rec) (init.1.getD (key rec) 0 + f rec)).length := by
      simpa using hu1
    have h2 : u < (init.2.set (key rec) (init.2.getD (key rec) 0 + 1)).length := by
      simpa using hu2
    obtain ⟨ihs, ihc⟩ := ih (init.1.set (key rec) (init.1.getD (key rec) 0 + f rec),
      init.2.set (key rec) (init.2.getD (key rec) 0 + 1)) h1 h2
    by_cases hk : key rec = u
    · subst hk
      constructor
      · rw [List.foldl_cons, ihs, getD_set_self _ _ _ _ hu1]
        simp [List.filter_cons]
        ring
      · rw [List.foldl_cons, ihc, getD_set_self _ _ _ _ hu2]
        simp [List.filter_cons]
        ring
    · constructor
      · rw [List.foldl_cons, ihs, getD_set_ne _ _ _ _ _ hk]
        simp [List.filter_cons, hk]
      · rw [List.foldl_cons, ihc, getD_set_ne _ _ _ _ _ hk]
        simp [List.filter_cons, hk]

/-- The fold preserves the lengths of both accumulator arrays. -/
theorem accum_foldl_length (key : TrainRec → Nat) (f : TrainRec → ℚ) (X : List TrainRec)
    (init : List ℚ × List ℚ) :
    (X.foldl (fun acc rec =>
        (acc.1.set (key rec) (acc.1.getD (key rec) 0 + f rec),
         acc.2.set (key rec) (acc.2.getD (key rec) 0 + 1))) init).1.length = init.1.length
    ∧ (X.foldl (fun acc rec =>
        (acc.1.set (key rec) (acc.1.getD (key rec) 0 + f rec),
         acc.2.set (key rec) (acc.2.getD (key rec) 0 + 1))) init).2.length = init.2.length := by
  induction X generalizing init with
  | nil => exact ⟨rfl, rfl⟩
  | cons rec X ih =>
    obtain ⟨i1, i2⟩ := ih (init.1.set (key rec) (init.1.getD (key rec) 0 + f rec),
      init.2.set (key rec) (init.2.getD (key rec) 0 + 1))
    exact ⟨by rw [List.foldl_cons, i1]; simp, by rw [List.foldl_cons, i2]; simp⟩

/-- The closed-form pass, per index: for `u < n`, entry `u` of the pass is
the sum of the residuals of the records keyed `u`, divided by `reg + count`. -/
theorem solvePass_getD (key : TrainRec → Nat) (f : TrainRec → ℚ) (X : List TrainRec)
    (reg : ℚ) (n : Nat) (u : Nat) (hu : u < n) :
    (solvePass key f X reg n).getD u 0
      = ((X.filter fun rec => key rec == u).map f).sum
          / (reg + ((X.filter fun rec => key rec == u).length : ℚ)) := by
  have hinit1 : u < (List.replicate n (0 : ℚ)).length := by simpa using hu
  have hlen := accum_foldl_length key f X (List.replicate n 0, List.replicate n 0)
  have hget := accum_foldl_getD key f X (List.replicate n 0, List.replicate n 0) u hinit1 hinit1
  unfold solvePass accumPass
  rw [getD_zipWith _ _ _ 0 0 0 u (by rw [hlen.1]; simpa using hu) (by rw [hlen.2]; simpa using hu)]
  unfold accumPass at hget
  rw [hget.1, hget.2]
  simp

/-- An index never keyed by any record is untouched by the float
accumulation fold. -/
theorem accumF_foldl_getD_untouched (key : TrainRec → Nat) (f : TrainRec → Option ℚ)
    (X : List TrainRec) (init : List (Option ℚ) × List ℚ) (u : Nat)
    (h : ∀ rec ∈ X, key rec ≠ u) :
    ((X.foldl (fun acc rec =>
        (acc.1.set (key rec) (fadd (acc.1.getD (key rec) (some 0)) (f rec)),
         acc.2.set (key rec) (acc.2.getD (key rec) 0 + 1))) init).1.getD u (some 0)
      = init.1.getD u (some 0))
    ∧ ((X.foldl (fun acc rec =>
        (acc.1.set (key rec) (fadd (acc.1.getD (key rec) (some 0)) (f rec)),
         acc.2.set (key rec) (acc.2.getD (key rec) 0 + 1))) init).2.getD u 0
      = init.2.getD u 0) := by
  induction X generalizing init with
  | nil => exact ⟨rfl, rfl⟩
  | cons rec X ih =>
    have hk : key rec ≠ u := h rec (List.mem_cons_self rec X)
    obtain ⟨i1, i2⟩ := ih (init.1.set (key rec) (fadd (init.1.getD (key rec) (some 0)) (f rec)),
        init.2.set (key rec) (init.2.getD (key rec) 0 + 1))
      (fun r hr => h r (List.mem_cons_of_mem rec hr))
    refine ⟨?_, ?_⟩
    · rw [List.foldl_cons, i1]
      exact getD_set_ne _ _ _ _ _ hk
    · rw [List.foldl_cons, i2]
      exact getD_set_ne _ _ _ _ _ hk

/-- The float accumulation fold preserves lengths. -/
theorem accumF_foldl_length (key : TrainRec → Nat) (f : TrainRec → Option ℚ)
    (X : List TrainRec) (init : List (Option ℚ) × List ℚ) :
    (X.foldl (fun acc rec =>
        (acc.1.set (key rec) (fadd (acc.1.getD (key rec) (some 0)) (f rec)),
         acc.2.set (key rec) (acc.2.getD (key rec) 0 + 1))) init).1.length = init.1.length
    ∧ (X.foldl (fun acc rec =>
        (acc.1.set (key rec) (fadd (acc.1.getD (key rec) (some 0)) (f rec)),
         acc.2.set (key rec) (acc.2.getD (key rec) 0 + 1))) init).2.length = init.2.length := by
  induction X generalizing init with
  | nil => exact ⟨rfl, rfl⟩
  | cons rec X ih =>
    obtain ⟨i1, i2⟩ := ih (init.1.set (key rec) (fadd (init.1.getD (key rec) (some 0)) (f rec)),
      init.2.set (key rec) (init.2.getD (key rec) 0 + 1))
    exact ⟨by rw [List.foldl_cons, i1]; simp, by rw [List.foldl_cons, i2]; simp⟩

/-- For an index with no records, the float closed-form pass computes
`fdiv 0 (reg + 0)`: exactly `0` when `reg ≠ 0`, non-finite (NaN) when
`reg = 0`. -/
theorem solvePassF_getD_untouched (key : TrainRec → Nat) (f : TrainRec → Option ℚ)
    (X : List TrainRec) (reg : ℚ) (n : Nat) (u : Nat) (hu : u < n)
    (h : ∀ rec ∈ X, key rec ≠ u) :
    (solvePassF key f X reg n).getD u (some 0) = fdiv (some 0) (some (reg + 0)) := by
  have hlen := accumF_foldl_length key f X (List.replicate n (some 0), List.replicate n 0)
  have hget := accumF_foldl_getD_untouched key f X
    (List.replicate n (some 0), List.replicate n 0) u h
  unfold solvePassF accumPassF
  rw [getD_zipWith _ _ _ (some 0) 0 (some 0) u
    (by rw [hlen.1]; simpa using hu) (by rw [hlen.2]; simpa using hu)]
  unfold accumPassF at hget
  rw [hget.1, hget.2, getD_replicate, getD_replicate]

/-- An SGD epoch leaves the bias of a user with no records, and of an item
with no records, unchanged at `0`. -/
theorem sgdEpoch_untouched (X : List TrainRec) (global_mean lr reg : ℚ)
    (st : List ℚ × List ℚ) (u i : Nat)
    (hu : ∀ rec ∈ X, rec.user ≠ u) (hi : ∀ rec ∈ X, rec.item ≠ i)
    (h1 : st.1.getD u 0 = 0) (h2 : st.2.getD i 0 = 0) :
    (sgdEpoch global_mean lr reg X st).1.getD u 0 = 0
    ∧ (sgdEpoch global_mean lr reg X st).2.getD i 0 = 0 := by
  induction X generalizing st with
  | nil => exact ⟨h1, h2⟩
  | cons rec X ih =>
    have hku : rec.user ≠ u := hu rec (List.mem_cons_self rec X)
    have hki : rec.item ≠ i := hi rec (List.mem_cons_self rec X)
    refine ih _ (fun r hr => hu r (List.mem_cons_of_mem rec hr))
      (fun r hr => hi r (List.mem_cons_of_mem rec hr)) ?_ ?_
    · rw [show (sgdStep global_mean lr reg st rec).1
          = st.1.set rec.user (st.1.getD rec.user 0 + lr * ((rec.rating
              - (global_mean + st.1.getD rec.user 0 + st.2.getD rec.item 0))
              - reg * st.1.getD rec.user 0)) from rfl,
        getD_set_ne _ _ _ _ _ hku]
      exact h1
    · rw [show (sgdStep global_mean lr reg st rec).2
          = st.2.set rec.item (st.2.getD rec.item 0 + lr * ((rec.rating
              - (global_mean + st.1.getD rec.user 0 + st.2.getD rec.item 0))
              - reg * st.2.getD rec.item 0)) from rfl,
        getD_set_ne _ _ _ _ _ hki]
      exact h2

/-- Iterating the SGD epoch preserves the zero bias of a record-free user
and item. -/
theorem sgd_iterate_untouched (X : List TrainRec) (global_mean lr reg : ℚ) (n : Nat)
    (st : List ℚ × List ℚ) (u i : Nat)
    (hu : ∀ rec ∈ X, rec.user ≠ u) (hi : ∀ rec ∈ X, rec.item ≠ i)
    (h1 : st.1.getD u 0 = 0) (h2 : st.2.getD i 0 = 0) :
    ((sgdEpoch global_mean lr reg X)^[n] st).1.getD u 0 = 0
    ∧ ((sgdEpoch global_mean lr reg X)^[n] st).2.getD i 0 = 0 := by
  induction n generalizing st with
  | zero => exact ⟨h1, h2⟩
  | succ n ih =>
    rw [Function.iterate_succ_apply]
    obtain ⟨e1, e2⟩ := sgdEpoch_untouched X global_mean lr reg st u i hu hi h1 h2
    exact ih _ e1 e2

/-- One float-semantics ALS epoch, with `reg ≠ 0`, puts exactly `0` at the
bias of a record-free user and item, whatever the incoming state. -/
theorem alsEpochF_untouched (X : List TrainRec) (global_mean reg : ℚ)
    (n_users n_items : Nat) (st : List (Option ℚ) × List (Option ℚ)) (u i : Nat)
    (hun : u < n_users) (hin : i < n_items)
    (hu : ∀ rec ∈ X, rec.user ≠ u) (hi : ∀ rec ∈ X, rec.item ≠ i) (hreg : reg ≠ 0) :
    (alsEpochF X global_mean reg n_users n_items st).1.getD u (some 0) = some 0
    ∧ (alsEpochF X global_mean reg n_users n_items st).2.getD i (some 0) = some 0 := by
  have hd : fdiv (some 0) (some (reg + 0)) = some 0 := by
    simp [fdiv, hreg]
  constructor
  · rw [show (alsEpochF X global_mean reg n_users n_items st).1
        = alsUserPassF X global_mean reg n_users st.2 from rfl]
    rw [alsUserPassF, solvePassF_getD_untouched _ _ _ _ _ _ hun hu, hd]
  · rw [show (alsEpochF X global_mean reg n_users n_items st).2
        = alsItemPassF X global_mean reg n_items
            (alsUserPassF X global_mean reg n_users st.2) from rfl]
    rw [alsItemPassF, solvePassF_getD_untouched _ _ _ _ _ _ hin hi, hd]

/-! ### The closed-form pass minimizes the squared error it solves (at `reg = 0`) -/

/-- Expanding a sum of squared deviations from a constant. -/
theorem sum_sq_sub_const (l : List ℚ) (c : ℚ) :
    (l.map fun x => (x - c)^2).sum
      = (l.map fun x => x^2).sum - 2*c*l.sum + (l.length : ℚ) * c^2 := by
  induction l with
  | nil => simp
  | cons x l ih =>
    simp only [List.map_cons, List.sum_cons, ih, List.length_cons]
    push_cast
    ring

/-- The mean minimizes the sum of squared deviations. -/
theorem sum_sq_mean_le (l : List ℚ) (c : ℚ) :
    (l.map fun x => (x - l.sum / (l.length : ℚ))^2).sum
      ≤ (l.map fun x => (x - c)^2).sum := by
  match l with
  | [] => simp
  | y :: t =>
    set l := y :: t
    have hn : (0 : ℚ) < (l.length : ℚ) := by
      have : 0 < l.length := by simp [l]
      exact_mod_cast this
    rw [sum_sq_sub_const, sum_sq_sub_const]
    obtain ⟨m, hm⟩ : ∃ m, l.sum / (l.length : ℚ) = m := ⟨_, rfl⟩
    rw [hm]
    have hS : l.sum = m * (l.length : ℚ) := by
      rw [← hm]
      field_simp
    rw [hS]
    nlinarith [mul_nonneg hn.le (sq_nonneg (c - m))]

/-- A sum over the table splits into one sum per fiber of the key. -/
theorem sum_map_fiberwise (key : TrainRec → Nat) (g : TrainRec → ℚ) (X : List TrainRec)
    (n : Nat) (h : ∀ rec ∈ X, key rec < n) :
    (X.map g).sum = ∑ u ∈ Finset.range n, ((X.filter fun rec => key rec == u).map g).sum := by
  induction X with
  | nil => simp
  | cons rec X ih =>
    have hrec : key rec ∈ Finset.range n :=
      Finset.mem_range.mpr (h rec (List.mem_cons_self rec X))
    have hstep : ∀ u, ((List.filter (fun r => key r == u) (rec :: X)).map g).sum
        = ((List.filter (fun r => key r == u) X).map g).sum
          + if key rec = u then g rec else 0 := by
      intro u
      by_cases hk : key rec = u
      · simp [List.filter_cons, hk]
        ring
      · simp [List.filter_cons, hk]
    rw [List.map_cons, List.sum_cons, ih (fun r hr => h r (List.mem_cons_of_mem rec hr)),
      Finset.sum_congr rfl (fun u _ => hstep u), Finset.sum_add_distrib,
      Finset.sum_ite_eq (Finset.range n) (key rec) (fun _ => g rec)]
    simp [hrec]
    ring

/-- At `reg = 0` the closed-form pass sets each bias to the mean residual of
its fiber, so the summed squared deviation it attains is no larger than with
any other bias vector `b`. -/
theorem solvePass_reg_zero_sse_le (key : TrainRec → Nat) (resid : TrainRec → ℚ)
    (X : List TrainRec) (n : Nat) (b : List ℚ) (h : ∀ rec ∈ X, key rec < n) :
    (X.map fun rec => (resid rec - (solvePass key resid X 0 n).getD (key rec) 0)^2).sum
      ≤ (X.map fun rec => (resid rec - b.getD (key rec) 0)^2).sum := by
  rw [sum_map_fiberwise key
      (fun rec => (resid rec - (solvePass key resid X 0 n).getD (key rec) 0)^2) X n h,
    sum_map_fiberwise key (fun rec => (resid rec - b.getD (key rec) 0)^2) X n h]
  refine Finset.sum_le_sum fun u hu => ?_
  have hfib : ∀ r ∈ X.filter (fun rec => key rec == u), key r = u := fun r hr => by
    simpa using (List.mem_filter.mp hr).2
  have hcong1 : ((X.filter fun rec => key rec == u).map
        fun rec => (resid rec - (solvePass key resid X 0 n).getD (key rec) 0)^2)
      = (((X.filter fun rec => key rec == u).map resid).map
        fun x => (x - (solvePass key resid X 0 n).getD u 0)^2) := by
    rw [List.map_map]
    exact List.map_congr_left fun r hr => by rw [Function.comp_apply, hfib r hr]
  have hcong2 : ((X.filter fun rec => key rec == u).map
        fun rec => (resid rec - b.getD (key rec) 0)^2)
      = (((X.filter fun rec => key rec == u).map resid).map
        fun x => (x - b.getD u 0)^2) := by
    rw [List.map_map]
    exact List.map_congr_left fun r hr => by rw [Function.comp_apply, hfib r hr]
  rw [hcong1, hcong2, solvePass_getD key resid X 0 n u (Finset.mem_range.mp hu), zero_add]
  have hmean := sum_sq_mean_le ((X.filter fun rec => key rec == u).map resid) (b.getD u 0)
  simpa [List.length_map] using hmean

/-- The `_rmse` numerator rewritten with the user-pass residuals. -/
theorem mse_num_resid_user (X : List TrainRec) (gm : ℚ) (ub ib : List ℚ) :
    (X.map fun rec =>
        (rec.rating - (gm + ub.getD rec.user 0 + ib.getD rec.item 0))^2).sum
      = (X.map fun rec =>
        ((rec.rating - gm - ib.getD rec.item 0) - ub.getD rec.user 0)^2).sum :=
  congrArg List.sum (List.map_congr_left fun rec _ => by ring)

/-- The `_rmse` numerator rewritten with the item-pass residuals. -/
theorem mse_num_resid_item (X : List TrainRec) (gm : ℚ) (ub ib : List ℚ) :
    (X.map fun rec =>
        (rec.rating - (gm + ub.getD rec.user 0 + ib.getD rec.item 0))^2).sum
      = (X.map fun rec =>
        ((rec.rating - gm - ub.getD rec.user 0) - ib.getD rec.item 0)^2).sum :=
  congrArg List.sum (List.map_congr_left fun rec _ => by ring)

/-- At `reg = 0`, one ALS epoch cannot increase the training MSE: the user
pass minimizes the summed squared error over user biases (item biases
fixed), then the item pass minimizes it over item biases (new user biases
fixed). -/
theorem alsEpoch_mse_le (X : List TrainRec) (gm : ℚ) (n_users n_items : Nat)
    (st : List ℚ × List ℚ)
    (hu : ∀ rec ∈ X, rec.user < n_users) (hi : ∀ rec ∈ X, rec.item < n_items) :
    mse X gm (alsEpoch X gm 0 n_users n_items st).1 (alsEpoch X gm 0 n_users n_items st).2
      ≤ mse X gm st.1 st.2 := by
  have h1 : (X.map fun rec => (rec.rating - (gm
          + (alsUserPass X gm 0 n_users st.2).getD rec.user 0
          + st.2.getD rec.item 0))^2).sum
      ≤ (X.map fun rec => (rec.rating - (gm + st.1.getD rec.user 0
          + st.2.getD rec.item 0))^2).sum := by
    rw [mse_num_resid_user X gm (alsUserPass X gm 0 n_users st.2) st.2,
      mse_num_resid_user X gm st.1 st.2]
    exact solvePass_reg_zero_sse_le (fun rec => rec.user)
      (fun rec => rec.rating - gm - st.2.getD rec.item 0) X n_users st.1 hu
  have h2 : (X.map fun rec => (rec.rating - (gm
          + (alsUserPass X gm 0 n_users st.2).getD rec.user 0
          + (alsItemPass X gm 0 n_items (alsUserPass X gm 0 n_users st.2)).getD
              rec.item 0))^2).sum
      ≤ (X.map fun rec => (rec.rating - (gm
          + (alsUserPass X gm 0 n_users st.2).getD rec.user 0
          + st.2.getD rec.item 0))^2).sum := by
    rw [mse_num_resid_item X gm (alsUserPass X gm 0 n_users st.2)
        (alsItemPass X gm 0 n_items (alsUserPass X gm 0 n_users st.2)),
      mse_num_resid_item X gm (alsUserPass X gm 0 n_users st.2) st.2]
    exact solvePass_reg_zero_sse_le (fun rec => rec.item)
      (fun rec => rec.rating - gm - (alsUserPass X gm 0 n_users st.2).getD rec.user 0)
      X n_items st.2 hi
  have hnum := le_trans h2 h1
  unfold mse
  rcases Nat.eq_zero_or_pos X.length with hlen | hlen
  · rw [hlen]
    norm_num
  · have hc : (0 : ℚ) < (X.length : ℚ) := by exact_mod_cast hlen
    exact (div_le_div_iff_of_pos_right hc).mpr hnum

/-- C1 (counterexample): the spec's end-to-end example claims record 3 of the
table `[(0,0,5), (0,1,3), (1,0,4)]` sees `pred = 4.09, error = -0.09` (which
would leave the epoch at biases `([-1/100, -9/1000], [91/1000, -11/100])`);
the code reads `user_biases[1] = 0` for record 3 (user 1, item 0), so
`pred = 4.1, error = -0.1` and the epoch ends at
`([-1/100, -1/100], [9/100, -11/100])` instead. -/
theorem c1_spec_record3_counterexample :
    sgd [⟨0, 0, 5⟩, ⟨0, 1, 3⟩, ⟨1, 0, 4⟩] 4 ([0, 0], [0, 0]) 1 (1/10) 0
        = ([-1/100, -1/100], [9/100, -11/100])
    ∧ sgd [⟨0, 0, 5⟩, ⟨0, 1, 3⟩, ⟨1, 0, 4⟩] 4 ([0, 0], [0, 0]) 1 (1/10) 0
        ≠ ([-1/100, -9/1000], [91/1000, -11/100]) := by
  constructor
  · norm_num [sgd, sgdEpoch, sgdStep, Function.iterate_one, List.getD, List.set]
  · norm_num [sgd, sgdEpoch, sgdStep, Function.iterate_one, List.getD, List.set]

/-- C1 (amended): the SGD trainer runs exactly `n_epochs` epochs (`n+1` epochs
are one further full epoch applied after `n` epochs); within an epoch the
records are visited in table order with the updated biases threaded to the
later records (the epoch on `rec :: X` first applies the step at `rec`, then
processes `X` from the updated state); each step computes
`pred = global_mean + user_biases[user] + item_biases[item]`,
`error = rating - pred`, then updates the user bias and the item bias in
place. On the table `[(0,0,5), (0,1,3), (1,0,4)]` with `n_epochs = 1`,
`lr = 1/10`, `reg = 0`, `global_mean = 4`: after record 1 the biases are
`([1/10, 0], [1/10, 0])` and after record 2 `([-1/100, 0], [1/10, -11/100])`
exactly as in the spec's example, but record 3 (user 1, item 0) reads
`user_biases[1] = 0`, so `pred = 41/10`, `error = -1/10`, and the epoch ends
at `([-1/100, -1/100], [9/100, -11/100])` — not the spec's record-3 numbers. -/
theorem c1_sgd_epochs_order_trajectory :
    (∀ X gm lr reg n st, sgd X gm st (n + 1) lr reg
        = sgdEpoch gm lr reg X (sgd X gm st n lr reg))
    ∧ (∀ gm lr reg rec X st, sgdEpoch gm lr reg (rec :: X) st
        = sgdEpoch gm lr reg X (sgdStep gm lr reg st rec))
    ∧ sgdStep 4 (1/10) 0 ([0, 0], [0, 0]) ⟨0, 0, 5⟩ = ([1/10, 0], [1/10, 0])
    ∧ sgdStep 4 (1/10) 0 ([1/10, 0], [1/10, 0]) ⟨0, 1, 3⟩ = ([-1/100, 0], [1/10, -11/100])
    ∧ sgdStep 4 (1/10) 0 ([-1/100, 0], [1/10, -11/100]) ⟨1, 0, 4⟩
        = ([-1/100, -1/100], [9/100, -11/100])
    ∧ sgd [⟨0, 0, 5⟩, ⟨0, 1, 3⟩, ⟨1, 0, 4⟩] 4 ([0, 0], [0, 0]) 1 (1/10) 0
        = ([-1/100, -1/100], [9/100, -11/100]) := by
  refine ⟨fun X gm lr reg n st => ?_, fun gm lr reg rec X st => rfl,
    by norm_num [sgdStep, List.getD, List.set],
    by norm_num [sgdStep, List.getD, List.set],
    by norm_num [sgdStep, List.getD, List.set],
    by norm_num [sgd, sgdEpoch, sgdStep, Function.iterate_one, List.getD, List.set]⟩
  exact Function.iterate_succ_apply' (sgdEpoch gm lr reg X) n st

/-- C2: in every ALS epoch, (a) every user bias is recomputed from scratch as
`(sum over that user's records of (rating - global_mean - item_biases[item]))
/ (reg + count)`, reading only the item biases `st.2` from before the pass —
the formula does not mention the old user biases at all; (b) every item bias
is then recomputed symmetrically from the just-updated user biases
(`alsUserPass … st.2`); (c) the epoch result is entirely independent of the
incoming user biases (the user pass strictly precedes the item pass and the
old user biases are discarded); (d) `n + 1` epochs are one further full epoch
applied after `n` epochs. -/
theorem c2_als_user_pass_then_item_pass (X : List TrainRec) (global_mean reg : ℚ)
    (n_users n_items : Nat) (st : List ℚ × List ℚ) (u i : Nat)
    (hu : u < n_users) (hi : i < n_items) :
    ((alsEpoch X global_mean reg n_users n_items st).1.getD u 0
      = ((X.filter fun rec => rec.user == u).map fun rec =>
            rec.rating - global_mean - st.2.getD rec.item 0).sum
          / (reg + ((X.filter fun rec => rec.user == u).length : ℚ)))
    ∧ ((alsEpoch X global_mean reg n_users n_items st).2.getD i 0
      = ((X.filter fun rec => rec.item == i).map fun rec =>
            rec.rating - global_mean
              - (alsUserPass X global_mean reg n_users st.2).getD rec.user 0).sum
          / (reg + ((X.filter fun rec => rec.item == i).length : ℚ)))
    ∧ (∀ ub₁ ub₂ ib, alsEpoch X global_mean reg n_users n_items (ub₁, ib)
        = alsEpoch X global_mean reg n_users n_items (ub₂, ib))
    ∧ (∀ n ub ib, als X global_mean ub ib (n + 1) reg
        = alsEpoch X global_mean reg ub.length ib.length (als X global_mean ub ib n reg)) := by
  refine ⟨?_, ?_, fun ub₁ ub₂ ib => rfl, fun n ub ib => ?_⟩
  · exact solvePass_getD _ _ X reg n_users u hu
  · exact solvePass_getD _ _ X reg n_items i hi
  · exact Function.iterate_succ_apply' _ n _

/-- C2 witness: the epoch formulas instantiated on the one-record table
`[(0, 0, 5)]` with `global_mean = 4`, `reg = 1`: the user bias becomes
`(5 - 4 - 0) / (1 + 1) = 1/2` and the item bias then
`(5 - 4 - 1/2) / (1 + 1) = 1/4`. -/
theorem c2_als_user_pass_then_item_pass_witness :
    (alsEpoch [⟨0, 0, 5⟩] 4 1 1 1 ([0], [0])).1.getD 0 0 = 1/2
    ∧ (alsEpoch [⟨0, 0, 5⟩] 4 1 1 1 ([0], [0])).2.getD 0 0 = 1/4 := by
  obtain ⟨h1, h2, -, -⟩ :=
    c2_als_user_pass_then_item_pass [⟨0, 0, 5⟩] 4 1 1 1 ([0], [0]) 0 0 (by decide) (by decide)
  have hv : (alsUserPass [⟨0, 0, 5⟩] 4 1 1 [0]).getD 0 0 = 1/2 := by
    refine Eq.trans h1 ?_
    norm_num [List.getD]
  refine ⟨hv, Eq.trans h2 ?_⟩
  simp only [List.filter, List.map, List.sum_cons, List.sum_nil, List.length_cons,
    List.length_nil]
  rw [hv]
  norm_num

/-- C3 (counterexample): on the table `[(0, 0, 5)]` with two users (user 1
has zero records), `reg = 0` and one ALS epoch, the code divides user 1's
accumulated sum `0.0` by `reg + count = 0.0`; numpy evaluates that to NaN
(non-finite, here `none`), not to the claimed exact `0`. -/
theorem c3_als_reg_zero_counterexample :
    (alsF [⟨0, 0, 5⟩] 5 [some 0, some 0] [some 0] 1 0).1.getD 1 (some 0) = none
    ∧ ((none : Option ℚ) ≠ some 0) := by
  constructor
  · norm_num [alsF, alsEpochF, alsUserPassF, alsItemPassF, solvePassF, accumPassF,
      fadd, fsub, fdiv, Function.iterate_one, List.getD, List.set]
  · simp

/-- C3 (amended): starting from the zero-filled bias vectors `fit`
initialises, a user `u` with zero training records and an item `i` with zero
training records end with bias exactly `0` after any number of SGD epochs for
every `lr` and `reg`, and — in the float semantics — after any number of ALS
epochs whenever `reg > 0`; at `reg = 0` the ALS division `0.0 / 0.0` makes
the bias NaN instead (see the counterexample). -/
theorem c3_zero_record_bias_amended (X : List TrainRec) (global_mean lr reg : ℚ)
    (n_users n_items n_epochs : Nat) (u i : Nat) (hun : u < n_users) (hin : i < n_items)
    (hu : ∀ rec ∈ X, rec.user ≠ u) (hi : ∀ rec ∈ X, rec.item ≠ i) :
    ((sgd X global_mean (List.replicate n_users 0, List.replicate n_items 0)
        n_epochs lr reg).1.getD u 0 = 0
      ∧ (sgd X global_mean (List.replicate n_users 0, List.replicate n_items 0)
        n_epochs lr reg).2.getD i 0 = 0)
    ∧ (0 < reg →
      (alsF X global_mean (List.replicate n_users (some 0))
          (List.replicate n_items (some 0)) n_epochs reg).1.getD u (some 0) = some 0
        ∧ (alsF X global_mean (List.replicate n_users (some 0))
          (List.replicate n_items (some 0)) n_epochs reg).2.getD i (some 0) = some 0) := by
  constructor
  · exact sgd_iterate_untouched X global_mean lr reg n_epochs _ u i hu hi
      (getD_replicate _ _ _) (getD_replicate _ _ _)
  · intro hreg
    match n_epochs with
    | 0 => exact ⟨getD_replicate _ _ _, getD_replicate _ _ _⟩
    | Nat.succ n =>
      rw [alsF, Function.iterate_succ_apply']
      rw [List.length_replicate, List.length_replicate]
      exact alsEpochF_untouched X global_mean reg n_users n_items _ u i hun hin hu hi
        (ne_of_gt hreg)

/-- C3 witness: on the one-record table `[(0, 0, 5)]` with 2 users and
2 items, user 1 and item 1 have no records; with `lr = 1/10` and `reg = 1`
their biases are exactly `0` after one SGD epoch and (float semantics) after
one ALS epoch. -/
theorem c3_zero_record_bias_amended_witness :
    ((sgd [⟨0, 0, 5⟩] 5 (List.replicate 2 0, List.replicate 2 0) 1 (1/10) 1).1.getD 1 0 = 0
      ∧ (sgd [⟨0, 0, 5⟩] 5 (List.replicate 2 0, List.replicate 2 0) 1 (1/10) 1).2.getD 1 0 = 0)
    ∧ ((0 : ℚ) < 1 →
      (alsF [⟨0, 0, 5⟩] 5 (List.replicate 2 (some 0))
          (List.replicate 2 (some 0)) 1 1).1.getD 1 (some 0) = some 0
        ∧ (alsF [⟨0, 0, 5⟩] 5 (List.replicate 2 (some 0))
          (List.replicate 2 (some 0)) 1 1).2.getD 1 (some 0) = some 0) :=
  c3_zero_record_bias_amended [⟨0, 0, 5⟩] 5 (1/10) 1 2 2 1 1 1 (by decide) (by decide)
    (by decide) (by decide)

/-- C4 (counterexample): with `reg = 1` on the table `[(0,0,0), (1,1,1)]`
(`global_mean = 1/2`, biases initialised to zero), epoch 2 *increases* the
training RMSE: after epoch 1 the biases are `([-1/4, 1/4], [-1/8, 1/8])`
with MSE `1/64`, after epoch 2 they are `([-3/16, 3/16], [-5/32, 5/32])`
with MSE `25/1024 > 16/1024`, so RMSE after epoch 2 exceeds RMSE before it.
Each ALS pass minimizes the *regularized* objective, not the RMSE. -/
theorem c4_als_rmse_increase_counterexample :
    rmse [⟨0, 0, 0⟩, ⟨1, 1, 1⟩] (1/2)
        (als [⟨0, 0, 0⟩, ⟨1, 1, 1⟩] (1/2) [0, 0] [0, 0] 1 1).1
        (als [⟨0, 0, 0⟩, ⟨1, 1, 1⟩] (1/2) [0, 0] [0, 0] 1 1).2
      < rmse [⟨0, 0, 0⟩, ⟨1, 1, 1⟩] (1/2)
        (als [⟨0, 0, 0⟩, ⟨1, 1, 1⟩] (1/2) [0, 0] [0, 0] 2 1).1
        (als [⟨0, 0, 0⟩, ⟨1, 1, 1⟩] (1/2) [0, 0] [0, 0] 2 1).2 := by
  have e1 : als [⟨0, 0, 0⟩, ⟨1, 1, 1⟩] (1/2) [0, 0] [0, 0] 1 1
      = ([-1/4, 1/4], [-1/8, 1/8]) := by
    norm_num [als, alsEpoch, alsUserPass, alsItemPass, solvePass, accumPass,
      Function.iterate_one, List.getD, List.set, List.zipWith, List.foldl, List.replicate]
  have e2 : als [⟨0, 0, 0⟩, ⟨1, 1, 1⟩] (1/2) [0, 0] [0, 0] 2 1
      = ([-3/16, 3/16], [-5/32, 5/32]) := by
    norm_num [als, alsEpoch, alsUserPass, alsItemPass, solvePass, accumPass,
      Function.iterate_succ, Function.iterate_zero, Function.comp,
      List.getD, List.set, List.zipWith, List.foldl, List.replicate]
  have m1 : mse [⟨0, 0, 0⟩, ⟨1, 1, 1⟩] (1/2) [-1/4, 1/4] [-1/8, 1/8] = 1/64 := by
    norm_num [mse, List.getD]
  have m2 : mse [⟨0, 0, 0⟩, ⟨1, 1, 1⟩] (1/2) [-3/16, 3/16] [-5/32, 5/32] = 25/1024 := by
    norm_num [mse, List.getD]
  rw [e1, e2]
  unfold rmse
  rw [m1, m2]
  exact Real.sqrt_lt_sqrt (by positivity) (by norm_num)

/-- C4 (amended): at `reg = 0`, for every table whose records index into the
bias vectors, the training RMSE (as computed by `_rmse`) after each ALS
epoch is at most the training RMSE before that epoch: the user pass sets
each user bias to its fiber's mean residual, minimizing the summed squared
error over user biases, and the item pass then minimizes it over item
biases.  For `reg > 0` the passes minimize the regularized objective
instead, and the RMSE can increase (see the counterexample). -/
theorem c4_als_rmse_monotone_reg_zero (X : List TrainRec) (global_mean : ℚ)
    (user_biases item_biases : List ℚ) (n : Nat)
    (hu : ∀ rec ∈ X, rec.user < user_biases.length)
    (hi : ∀ rec ∈ X, rec.item < item_biases.length) :
    rmse X global_mean (als X global_mean user_biases item_biases (n + 1) 0).1
        (als X global_mean user_biases item_biases (n + 1) 0).2
      ≤ rmse X global_mean (als X global_mean user_biases item_biases n 0).1
        (als X global_mean user_biases item_biases n 0).2 := by
  have hstep := alsEpoch_mse_le X global_mean user_biases.length item_biases.length
    (als X global_mean user_biases item_biases n 0) hu hi
  unfold als at hstep ⊢
  rw [Function.iterate_succ_apply']
  unfold rmse
  exact Real.sqrt_le_sqrt (by exact_mod_cast hstep)

/-- C4 witness: one ALS epoch at `reg = 0` on the table
`[(0,0,5), (0,1,3), (1,0,4)]` with `global_mean = 4` does not increase the
training RMSE relative to the zero-bias starting point. -/
theorem c4_als_rmse_monotone_reg_zero_witness :
    rmse [⟨0, 0, 5⟩, ⟨0, 1, 3⟩, ⟨1, 0, 4⟩] 4
        (als [⟨0, 0, 5⟩, ⟨0, 1, 3⟩, ⟨1, 0, 4⟩] 4 [0, 0] [0, 0] 1 0).1
        (als [⟨0, 0, 5⟩, ⟨0, 1, 3⟩, ⟨1, 0, 4⟩] 4 [0, 0] [0, 0] 1 0).2
      ≤ rmse [⟨0, 0, 5⟩, ⟨0, 1, 3⟩, ⟨1, 0, 4⟩] 4
        (als [⟨0, 0, 5⟩, ⟨0, 1, 3⟩, ⟨1, 0, 4⟩] 4 [0, 0] [0, 0] 0 0).1
        (als [⟨0, 0, 5⟩, ⟨0, 1, 3⟩, ⟨1, 0, 4⟩] 4 [0, 0] [0, 0] 0 0).2 :=
  c4_als_rmse_monotone_reg_zero [⟨0, 0, 5⟩, ⟨0, 1, 3⟩, ⟨1, 0, 4⟩] 4 [0, 0] [0, 0] 0
    (by decide) (by decide)

/-- C7: a query row with both indices equal to the `UNKNOWN` sentinel `-1`
predicts exactly `global_mean` clipped to the rating range, flagged
`known = false`; moreover a row with unknown user (resp. item) yields a
result entirely independent of the user (resp. item) bias vector — the
sentinel never indexes a bias vector (a bias is added only when its index is
known). -/
theorem c7_cold_start_prediction (X : List (Int × Int)) (gm mn mx : ℚ)
    (ub ib ub2 ib2 : List ℚ) (k : Nat) (hk : X.get? k = some (-1, -1)) :
    ((predictKernel X gm mn mx ub ib).1.get? k
        = some (if gm > mx then mx else if gm < mn then mn else gm))
    ∧ ((predictKernel X gm mn mx ub ib).2.get? k = some false)
    ∧ (∀ q : Int × Int, q.1 = -1 →
        predictOne gm mn mx ub ib q = predictOne gm mn mx ub2 ib q)
    ∧ (∀ q : Int × Int, q.2 = -1 →
        predictOne gm mn mx ub ib q = predictOne gm mn mx ub ib2 q) := by
  have hone : predictOne gm mn mx ub ib (-1, -1)
      = (if gm > mx then mx else if gm < mn then mn else gm, false) := by
    simp [predictOne]
  refine ⟨?_, ?_, ?_, ?_⟩
  · rw [predictKernel, List.unzip_eq_map]
    rw [show ((X.map (predictOne gm mn mx ub ib)).map Prod.fst,
        (X.map (predictOne gm mn mx ub ib)).map Prod.snd).1
      = (X.map (predictOne gm mn mx ub ib)).map Prod.fst from rfl,
      List.get?_map, List.get?_map, hk]
    simp [hone]
  · rw [predictKernel, List.unzip_eq_map]
    rw [show ((X.map (predictOne gm mn mx ub ib)).map Prod.fst,
        (X.map (predictOne gm mn mx ub ib)).map Prod.snd).2
      = (X.map (predictOne gm mn mx ub ib)).map Prod.snd from rfl,
      List.get?_map, List.get?_map, hk]
    simp [hone]
  · rintro ⟨q1, q2⟩ hq
    cases hq
    simp [predictOne]
  · rintro ⟨q1, q2⟩ hq
    cases hq
    simp [predictOne]

/-- C7 witness: the single-row query `[(-1, -1)]` with `global_mean = 3`,
range `[0, 5]`: the prediction is `3` (clipping leaves it) and the flag is
`false`, for any biases. -/
theorem c7_cold_start_prediction_witness :
    (predictKernel [(-1, -1)] 3 0 5 [7] [9]).1.get? 0
        = some (if (3 : ℚ) > 5 then 5 else if (3 : ℚ) < 0 then 0 else 3)
    ∧ (predictKernel [(-1, -1)] 3 0 5 [7] [9]).2.get? 0 = some false := by
  obtain ⟨h1, h2, -, -⟩ :=
    c7_cold_start_prediction [(-1, -1)] 3 0 5 [7] [9] [8] [8] 0 (by decide)
  exact ⟨h1, h2⟩

/-- C8: whenever `min_rating ≤ max_rating`, every prediction `_predict`
emits lies in the closed interval `[min_rating, max_rating]`. -/
theorem c8_predictions_clipped (X : List (Int × Int)) (gm mn mx : ℚ) (ub ib : List ℚ)
    (h : mn ≤ mx) :
    ∀ p ∈ (predictKernel X gm mn mx ub ib).1, mn ≤ p ∧ p ≤ mx := by
  intro p hp
  rw [predictKernel, List.unzip_eq_map] at hp
  simp only [List.map_map, List.mem_map, Function.comp_apply] at hp
  obtain ⟨q, hq, rfl⟩ := hp
  unfold predictOne
  dsimp only
  split_ifs <;> constructor <;> linarith

/-- C8 witness: with range `[0, 5]` and `global_mean = 10`, the single
prediction on `[(0, 0)]` evaluates to `5` (clipped), and it lies in
`[0, 5]`. -/
theorem c8_predictions_clipped_witness :
    (predictKernel [(0, 0)] 10 0 5 [0] [0]).1 = [5]
    ∧ ((0 : ℚ) ≤ 5 ∧ (5 : ℚ) ≤ 5) := by
  have hlist : (predictKernel [(0, 0)] 10 0 5 [0] [0]).1 = [5] := by
    norm_num [predictKernel, predictOne, List.unzip_eq_map, List.getD]
  refine ⟨hlist, c8_predictions_clipped [(0, 0)] 10 0 5 [0] [0] (by norm_num) 5 ?_⟩
  rw [hlist]
  exact List.mem_singleton.mpr rfl

/-- C9: on a fitted model, `predict` produces the pair of the ordered
predictions and the parallel `predictions_possible` flags: entry `k` of each
output is computed from query row `k` alone (both outputs are maps over the
query rows in input order), and both outputs have the query's length,
however many identifiers are unknown. -/
theorem c9_predict_order_and_parallel_flags (m : Model) (X : List RawQuery)
    (umap imap : List Int) (gm : ℚ) (ub ib : List ℚ)
    (h1 : m.user_id_map = some umap) (h2 : m.item_id_map = some imap)
    (h3 : m.global_mean = some gm) (h4 : m.user_biases = some ub)
    (h5 : m.item_biases = some ib) :
    predictE m X = Except.ok
      (X.map fun q =>
        (predictOne gm m.min_rating m.max_rating ub ib (remapQuery umap imap q)).1,
       X.map fun q =>
        (predictOne gm m.min_rating m.max_rating ub ib (remapQuery umap imap q)).2)
    ∧ (∀ preds poss, predictE m X = Except.ok (preds, poss) →
        preds.length = X.length ∧ poss.length = X.length) := by
  have hok : predictE m X = Except.ok
      (predictKernel (X.map (remapQuery umap imap)) gm m.min_rating m.max_rating ub ib) := by
    rw [predictE, h1, h2, h3, h4, h5]
  have hmaps : predictKernel (X.map (remapQuery umap imap)) gm m.min_rating m.max_rating ub ib
      = (X.map fun q =>
          (predictOne gm m.min_rating m.max_rating ub ib (remapQuery umap imap q)).1,
         X.map fun q =>
          (predictOne gm m.min_rating m.max_rating ub ib (remapQuery umap imap q)).2) := by
    rw [predictKernel, List.unzip_eq_map, List.map_map, List.map_map, List.map_map]
    simp [Function.comp]
  refine ⟨hok.trans (congrArg Except.ok hmaps), fun preds poss hp => ?_⟩
  rw [hok, hmaps] at hp
  obtain ⟨rfl, rfl⟩ : (X.map fun q =>
        (predictOne gm m.min_rating m.max_rating ub ib (remapQuery umap imap q)).1) = preds
      ∧ (X.map fun q =>
        (predictOne gm m.min_rating m.max_rating ub ib (remapQuery umap imap q)).2) = poss := by
    injection hp with hpair
    exact ⟨congrArg Prod.fst hpair, congrArg Prod.snd hpair⟩
  simp [List.length_map]

/-- C9 witness: a fitted one-user/one-item model applied to a two-row query
(one known pair, one fully unknown pair) returns the two predictions and the
two flags in order. -/
theorem c9_predict_order_and_parallel_flags_witness :
    predictE ⟨"sgd", 1, 1/50, 1/200, 0, 5, some 4, some [1/2], some [1/4],
        some [7], some [9]⟩ [⟨7, 9⟩, ⟨8, 8⟩]
      = Except.ok
        ([⟨7, 9⟩, ⟨8, 8⟩].map fun q =>
          (predictOne 4 (0 : ℚ) (5 : ℚ) [1/2] [1/4] (remapQuery [7] [9] q)).1,
         [⟨7, 9⟩, ⟨8, 8⟩].map fun q =>
          (predictOne 4 (0 : ℚ) (5 : ℚ) [1/2] [1/4] (remapQuery [7] [9] q)).2) :=
  (c9_predict_order_and_parallel_flags
    ⟨"sgd", 1, 1/50, 1/200, 0, 5, some 4, some [1/2], some [1/4], some [7], some [9]⟩
    [⟨7, 9⟩, ⟨8, 8⟩] [7] [9] 4 [1/2] [1/4] rfl rfl rfl rfl rfl).1

/-- C5 (counterexample): a configuration violating all three stated rules at
once — unknown method `"foo"`, `min_rating = 5 > max_rating = 0`,
`n_epochs = -3` — raises nothing: `fit` returns normally and updates every
learned attribute (`global_mean` becomes `4`, the biases are zero-filled). -/
theorem c5_no_validation_counterexample :
    fitE (initModel "foo" (-3) (1/50) (1/200) 5 0) [⟨7, 9, 4⟩]
        = Except.ok (fit (initModel "foo" (-3) (1/50) (1/200) 5 0) [⟨7, 9, 4⟩])
    ∧ (fit (initModel "foo" (-3) (1/50) (1/200) 5 0) [⟨7, 9, 4⟩]).global_mean = some 4
    ∧ (fit (initModel "foo" (-3) (1/50) (1/200) 5 0) [⟨7, 9, 4⟩]).user_biases = some [0]
    ∧ (fit (initModel "foo" (-3) (1/50) (1/200) 5 0) [⟨7, 9, 4⟩]).item_biases = some [0] := by
  have hs : ¬("foo" = "sgd") := by decide
  have ha : ¬("foo" = "als") := by decide
  refine ⟨rfl, ?_, ?_, ?_⟩ <;>
    norm_num [fit, initModel, preprocessData, dedupFirst, List.replicate, hs, ha]

/-- C5 (amended): `fit` performs no configuration validation at all: it
returns successfully on every input (no error channel is ever used); an
unknown method runs no trainer and leaves the zero-filled biases; a
non-positive `n_epochs` runs zero epochs (`range(n_epochs)` is empty), again
leaving the zero-filled biases, under every method. -/
theorem c5_no_validation_amended (m : Model) (X : List RawRating) :
    fitE m X = Except.ok (fit m X)
    ∧ (m.method ≠ "sgd" → m.method ≠ "als" →
        (fit m X).user_biases
            = some (List.replicate (dedupFirst (X.map fun r => r.u_id)).length 0)
          ∧ (fit m X).item_biases
            = some (List.replicate (dedupFirst (X.map fun r => r.i_id)).length 0))
    ∧ (m.n_epochs ≤ 0 →
        (fit m X).user_biases
            = some (List.replicate (dedupFirst (X.map fun r => r.u_id)).length 0)
          ∧ (fit m X).item_biases
            = some (List.replicate (dedupFirst (X.map fun r => r.i_id)).length 0)) := by
  refine ⟨rfl, fun hs ha => ?_, fun hn => ?_⟩
  · simp [fit, preprocessData, hs, ha]
  · have h0 : m.n_epochs.toNat = 0 := Int.toNat_of_nonpos hn
    by_cases hs : m.method = "sgd"
    · simp [fit, preprocessData, hs, h0, sgd]
    · by_cases ha : m.method = "als"
      · simp [fit, preprocessData, ha, hs, h0, als]
      · simp [fit, preprocessData, hs, ha]

/-- C5 witness: the concrete invalid configuration of the counterexample
never errors and keeps the zero biases. -/
theorem c5_no_validation_amended_witness :
    fitE (initModel "foo" (-3) (1/50) (1/200) 5 0) [⟨7, 9, 4⟩]
        = Except.ok (fit (initModel "foo" (-3) (1/50) (1/200) 5 0) [⟨7, 9, 4⟩])
    ∧ (fit (initModel "foo" (-3) (1/50) (1/200) 5 0) [⟨7, 9, 4⟩]).user_biases
        = some (List.replicate (dedupFirst ([⟨7, 9, 4⟩].map fun r => RawRating.u_id r)).length 0)
    ∧ (fit (initModel "foo" (-3) (1/50) (1/200) 5 0) [⟨7, 9, 4⟩]).item_biases
        = some (List.replicate (dedupFirst ([⟨7, 9, 4⟩].map fun r => RawRating.i_id r)).length 0) :=
  ⟨(c5_no_validation_amended (initModel "foo" (-3) (1/50) (1/200) 5 0) [⟨7, 9, 4⟩]).1,
   ((c5_no_validation_amended (initModel "foo" (-3) (1/50) (1/200) 5 0) [⟨7, 9, 4⟩]).2.1
      (by decide) (by decide)).1,
   ((c5_no_validation_amended (initModel "foo" (-3) (1/50) (1/200) 5 0) [⟨7, 9, 4⟩]).2.1
      (by decide) (by decide)).2⟩

/-- C6 (counterexample): calling `fit` a second time on an already-fitted
instance raises no precondition-violation error: it completes normally (the
code has no fitted-state check; it simply refits from scratch). -/
theorem c6_fit_twice_no_error_counterexample :
    fitE (fit (initModel "sgd" 1 (1/50) (1/200) 0 5) [⟨7, 9, 4⟩]) [⟨7, 9, 4⟩]
        = Except.ok (fit (fit (initModel "sgd" 1 (1/50) (1/200) 0 5) [⟨7, 9, 4⟩]) [⟨7, 9, 4⟩])
    ∧ fitE (fit (initModel "sgd" 1 (1/50) (1/200) 0 5) [⟨7, 9, 4⟩]) [⟨7, 9, 4⟩]
        ≠ Except.error ModelError.unfitted := by
  exact ⟨rfl, fun h => by simp [fitE] at h⟩

/-- C6 (amended): calling `predict` on a never-fitted instance fails
immediately with an error (the learned attributes are all `None`, so the
remap step raises); but calling `fit` a second time raises nothing — it
returns successfully, refitting from scratch. -/
theorem c6_unfitted_predict_errors_fit_twice_ok :
    (∀ (method : String) (n_epochs : Int) (reg lr mn mx : ℚ) (X : List RawQuery),
      predictE (initModel method n_epochs reg lr mn mx) X
        = Except.error ModelError.unfitted)
    ∧ (∀ (m : Model) (X₁ X₂ : List RawRating),
      fitE (fit m X₁) X₂ = Except.ok (fit (fit m X₁) X₂)) :=
  ⟨fun _ _ _ _ _ _ _ => rfl, fun _ _ _ => rfl⟩

/-- C10: `fit` reinitializes every learned attribute from scratch (id maps
and `global_mean` recomputed from the table, biases restarted from zero
vectors of the table's dimensions) before dispatching, so fitting an
already-fitted instance gives exactly the model a single `fit` on the same
instance would give, and any two instances with the same `method`,
`n_epochs`, `reg` and `lr` learn identical state from the same table. -/
theorem c10_refit_equals_fresh_fit (m : Model) (X₀ X : List RawRating) :
    fit (fit m X₀) X = fit m X
    ∧ (∀ m₂ : Model, m₂.method = m.method → m₂.n_epochs = m.n_epochs →
        m₂.reg = m.reg → m₂.lr = m.lr →
        (fit m₂ X).global_mean = (fit m X).global_mean
        ∧ (fit m₂ X).user_biases = (fit m X).user_biases
        ∧ (fit m₂ X).item_biases = (fit m X).item_biases
        ∧ (fit m₂ X).user_id_map = (fit m X).user_id_map
        ∧ (fit m₂ X).item_id_map = (fit m X).item_id_map) := by
  refine ⟨rfl, fun m₂ hm hn hr hl => ?_⟩
  refine ⟨?_, ?_, ?_, ?_, ?_⟩ <;> simp [fit, hm, hn, hr, hl]

/-- C10 witness: refitting a fitted instance on a second table agrees with a
single fit, and an instance with the same trainer configuration but
different rating bounds learns the same biases from the same table. -/
theorem c10_refit_equals_fresh_fit_witness :
    fit (fit (initModel "sgd" 1 (1/50) (1/200) 0 5) [⟨7, 9, 4⟩]) [⟨3, 4, 2⟩]
        = fit (initModel "sgd" 1 (1/50) (1/200) 0 5) [⟨3, 4, 2⟩]
    ∧ (fit (initModel "sgd" 1 (1/50) (1/200) 7 9) [⟨3, 4, 2⟩]).user_biases
        = (fit (initModel "sgd" 1 (1/50) (1/200) 0 5) [⟨3, 4, 2⟩]).user_biases :=
  ⟨(c10_refit_equals_fresh_fit (initModel "sgd" 1 (1/50) (1/200) 0 5)
      [⟨7, 9, 4⟩] [⟨3, 4, 2⟩]).1,
   ((c10_refit_equals_fresh_fit (initModel "sgd" 1 (1/50) (1/200) 0 5)
      [⟨7, 9, 4⟩] [⟨3, 4, 2⟩]).2 (initModel "sgd" 1 (1/50) (1/200) 7 9)
      rfl rfl rfl rfl).2.1⟩

end Baseline
